import Mathlib

/-!
Verification of the mailfilter repository's core components against its
specification: the counting Bloom filter (`bloom/bloom.go`), its on-disk
serialization and background persistence (`bloom/bloom-db.go`), the sliding
window source (`ntuple/ntuple.go`), and the Bayesian classifier
(`classifier/classifier.go`).

Machine integers are modelled as `Nat` with explicit reduction modulo
`2 ^ 32` (uint32) and `2 ^ 64` (uint64) at the points where the Go code can
overflow.  Bytes are modelled as `Nat`; the byte type constraint (`< 256`)
is encoded by masking with `% 256` at use sites.
-/

namespace Mailfilter

/-! ## Counting Bloom filter (`bloom/bloom.go`)

`const filterSize = 1_000_000; numFuncs = 8`.  The filter `F` is a
`[numFuncs][filterSize]uint64` grid, modelled as a function
`Nat → Nat → Nat` (row index, column index ↦ counter value); cells outside
`[0,numFuncs) × [0,filterSize)` are never touched by the operations. -/

def filterSize : Nat := 1000000

def numFuncs : Nat := 8

/-- `2 ^ 64`: the modulus of Go's `uint64` arithmetic. -/
def uint64Mod : Nat := 18446744073709551616

/-- `2 ^ 32`: the modulus of Go's `uint32` arithmetic. -/
def uint32Mod : Nat := 4294967296

def offset32 : Nat := 2166136261

def prime32 : Nat := 16777619

/-- `F.hash` from `bloom/bloom.go`: inlined 32-bit FNV-1 seeded with the
projection index `i`, reduced modulo `filterSize`.
`s := offset32; s *= prime32; s ^= i; for c in w { s *= prime32; s ^= c };
return s % filterSize`.  All `uint32` multiplications reduce mod `2^32`;
xor of values `< 2^32` stays `< 2^32`.  `i` and the bytes of `w` are masked
to their Go types (`uint32`, `byte`). -/
def fHash (i : Nat) (w : List Nat) : Nat :=
  let s0 := (offset32 * prime32) % uint32Mod
  let s1 := s0 ^^^ (i % uint32Mod)
  let s2 := w.foldl (fun s c => ((s * prime32) % uint32Mod) ^^^ (c % 256)) s1
  s2 % filterSize

/-- `F.Add` from `bloom/bloom.go`: for each projection `i < numFuncs`,
`Field[i][hash(i,w)] += delta` with wrapping `uint64` addition. -/
def fAdd (f : Nat → Nat → Nat) (w : List Nat) (delta : Nat) : Nat → Nat → Nat :=
  fun i j => if i < numFuncs ∧ j = fHash i w then (f i j + delta) % uint64Mod else f i j

/-- `F.Score` from `bloom/bloom.go`: starting from `math.MaxUint64`, take the
minimum of `Field[i][hash(i,w)]` over all projections `i < numFuncs`
(`if s > Field[i][j] { s = Field[i][j] }`). -/
def fScore (f : Nat → Nat → Nat) (w : List Nat) : Nat :=
  (List.range numFuncs).foldl (fun s i => min s (f i (fHash i w))) (uint64Mod - 1)

/-- `F.Remove` from `bloom/bloom.go`: compute `s := Score(w)`; if `s == 0`
return unchanged; clamp `delta` to `s`; then for each projection subtract the
clamped delta from `Field[i][hash(i,w)]`, skipping (`continue`) any counter
already smaller than the clamped delta. -/
def fRemove (f : Nat → Nat → Nat) (w : List Nat) (delta : Nat) : Nat → Nat → Nat :=
  let s := fScore f w
  if s = 0 then f
  else
    let d := if s < delta then s else delta
    fun i j =>
      if i < numFuncs ∧ j = fHash i w then
        if f i j < d then f i j else f i j - d
      else f i j

/-- The zero-valued filter (a freshly created `F`). -/
def fZero : Nat → Nat → Nat := fun _ _ => 0

/-- A filter state with every counter at `math.MaxUint64`. -/
def fMax : Nat → Nat → Nat := fun _ _ => uint64Mod - 1

/-! ## Serialization (`bloom/bloom-db.go`)

`DB.persist` writes the filter with `binary.Write(f, binary.BigEndian, &d.f)`:
the `[8][1000000]uint64` grid is dumped row-major, each counter as 8
big-endian bytes, 8_000_000 bytes per row.  `NewDB` reads it back with
`binary.Read`.  The byte stream is modelled as a function from byte
position to byte value. -/

/-- Big-endian byte `k` (0 = most significant) of the `uint64` value `v`. -/
def byteAt (v k : Nat) : Nat := v / 2 ^ (8 * (7 - k)) % 256

/-- The byte stream produced by `binary.Write(…, binary.BigEndian, &d.f)` in
`DB.persist`: position `p` holds big-endian byte `p % 8` of the counter at
row `p / 8000000`, column `p % 8000000 / 8`. -/
def serializeF (f : Nat → Nat → Nat) : Nat → Nat :=
  fun p => byteAt (f (p / 8000000) (p % 8000000 / 8)) (p % 8)

/-- The filter reconstructed by `binary.Read(…, binary.BigEndian, &db.f)` in
`NewDB`: the counter at row `i`, column `j` is assembled big-endian from the
8 bytes at positions `i * 8000000 + j * 8 + k`, `k < 8`. -/
def deserializeF (g : Nat → Nat) : Nat → Nat → Nat :=
  fun i j => (List.range 8).foldl (fun acc k => acc * 256 + g (i * 8000000 + j * 8 + k)) 0

/-! ## Helper lemmas for the Bloom filter -/

theorem fHash_lt (i : Nat) (w : List Nat) : fHash i w < filterSize := by
  simp only [fHash]
  exact Nat.mod_lt _ (by decide)

theorem fScore_expand (f : Nat → Nat → Nat) (w : List Nat) :
    fScore f w =
      min (min (min (min (min (min (min (min (uint64Mod - 1)
        (f 0 (fHash 0 w))) (f 1 (fHash 1 w))) (f 2 (fHash 2 w)))
        (f 3 (fHash 3 w))) (f 4 (fHash 4 w))) (f 5 (fHash 5 w)))
        (f 6 (fHash 6 w))) (f 7 (fHash 7 w)) := rfl

theorem fAdd_cell (f : Nat → Nat → Nat) (w : List Nat) (d i : Nat) (hi : i < numFuncs) :
    fAdd f w d i (fHash i w) = (f i (fHash i w) + d) % uint64Mod := by
  unfold fAdd
  rw [if_pos ⟨hi, rfl⟩]

theorem fRemove_id (f : Nat → Nat → Nat) (w : List Nat) (d : Nat)
    (hs : fScore f w = 0) : fRemove f w d = f := by
  simp only [fRemove]
  rw [if_pos hs]

theorem fRemove_cell (f : Nat → Nat → Nat) (w : List Nat) (d i : Nat) (hi : i < numFuncs)
    (hs : fScore f w ≠ 0) (hge : ¬ (fScore f w < d)) (hcell : ¬ (f i (fHash i w) < d)) :
    fRemove f w d i (fHash i w) = f i (fHash i w) - d := by
  simp only [fRemove]
  rw [if_neg hs, if_neg hge,
    if_pos (show i < numFuncs ∧ fHash i w = fHash i w from ⟨hi, rfl⟩), if_neg hcell]

/-- `fRemove` never increases any counter: the `if b.Field[i][j] < delta`
guard in the source ensures the `uint64` subtraction never wraps below
zero, so the updated cell is always at most the original cell. -/
theorem fRemove_le (f : Nat → Nat → Nat) (w : List Nat) (d i j : Nat) :
    fRemove f w d i j ≤ f i j := by
  unfold fRemove
  split_ifs <;> simp <;> split_ifs <;> omega

theorem min_add_pair (d x y : Nat) : min (x + d) (y + d) = min x y + d := by omega

theorem min8_add (M a0 a1 a2 a3 a4 a5 a6 a7 d : Nat)
    (h0 : a0 + d ≤ M) :
    min (min (min (min (min (min (min (min M (a0 + d)) (a1 + d)) (a2 + d)) (a3 + d))
        (a4 + d)) (a5 + d)) (a6 + d)) (a7 + d) =
      min (min (min (min (min (min (min (min M a0) a1) a2) a3) a4) a5) a6) a7 + d := by
  rw [min_eq_right h0, min_eq_right (show a0 ≤ M by omega)]
  rw [min_add_pair, min_add_pair, min_add_pair, min_add_pair, min_add_pair,
    min_add_pair, min_add_pair]

/-- When none of the eight counters touched for `w` overflows, `Add`
increments each of them by exactly `delta`, so the minimum rises by
exactly `delta`. -/
theorem fScore_fAdd (f : Nat → Nat → Nat) (w : List Nat) (d : Nat)
    (hno : ∀ i ∈ List.range numFuncs, f i (fHash i w) + d < uint64Mod) :
    fScore (fAdd f w d) w = fScore f w + d := by
  have hA : ∀ i, i < numFuncs →
      fAdd f w d i (fHash i w) = f i (fHash i w) + d := by
    intro i hi
    rw [fAdd_cell f w d i hi, Nat.mod_eq_of_lt (hno i (by simpa using hi))]
  have h0 := hno 0 (by decide)
  rw [fScore_expand, fScore_expand]
  rw [hA 0 (by decide), hA 1 (by decide), hA 2 (by decide), hA 3 (by decide),
    hA 4 (by decide), hA 5 (by decide), hA 6 (by decide), hA 7 (by decide)]
  exact min8_add _ _ _ _ _ _ _ _ _ _ (by omega)

theorem fScore_fRemove_fAdd (f : Nat → Nat → Nat) (w : List Nat) (d : Nat)
    (hno : ∀ i ∈ List.range numFuncs, f i (fHash i w) + d < uint64Mod) :
    fScore (fRemove (fAdd f w d) w d) w = fScore f w := by
  have hA : ∀ i, i < numFuncs →
      fAdd f w d i (fHash i w) = f i (fHash i w) + d := by
    intro i hi
    rw [fAdd_cell f w d i hi, Nat.mod_eq_of_lt (hno i (by simpa using hi))]
  have hsc := fScore_fAdd f w d hno
  by_cases hz : fScore (fAdd f w d) w = 0
  · rw [fRemove_id _ _ _ hz, hsc]
    rw [hsc] at hz
    omega
  · have hge : ¬ (fScore (fAdd f w d) w < d) := by
      rw [hsc]
      omega
    have hR : ∀ i, i < numFuncs →
        fRemove (fAdd f w d) w d i (fHash i w) = f i (fHash i w) := by
      intro i hi
      have hcell : ¬ (fAdd f w d i (fHash i w) < d) := by
        rw [hA i hi]
        omega
      rw [fRemove_cell (fAdd f w d) w d i hi hz hge hcell, hA i hi]
      omega
    rw [fScore_expand, fScore_expand]
    rw [hR 0 (by decide), hR 1 (by decide), hR 2 (by decide), hR 3 (by decide),
      hR 4 (by decide), hR 5 (by decide), hR 6 (by decide), hR 7 (by decide)]

theorem serPos_div (i j k : Nat) (hj : j < filterSize) (hk : k < 8) :
    (i * 8000000 + j * 8 + k) / 8000000 = i := by
  simp only [filterSize] at hj
  omega

theorem serPos_mod1 (i j k : Nat) (hj : j < filterSize) (hk : k < 8) :
    (i * 8000000 + j * 8 + k) % 8000000 / 8 = j := by
  simp only [filterSize] at hj
  omega

theorem serPos_mod2 (i j k : Nat) (_hj : j < filterSize) (hk : k < 8) :
    (i * 8000000 + j * 8 + k) % 8 = k := by
  omega

/-- Serialize-then-deserialize reproduces every in-range counter (reduced to
its `uint64` value). -/
theorem deser_ser_cell (f : Nat → Nat → Nat) (i j : Nat) (hj : j < filterSize) :
    deserializeF (serializeF f) i j = f i j % uint64Mod := by
  show (List.range 8).foldl
      (fun acc k => acc * 256 + serializeF f (i * 8000000 + j * 8 + k)) 0 = f i j % uint64Mod
  have e : (List.range 8) = [0, 1, 2, 3, 4, 5, 6, 7] := rfl
  rw [e]
  simp only [List.foldl, serializeF]
  rw [serPos_div i j 0 hj (by omega), serPos_mod1 i j 0 hj (by omega),
    serPos_mod2 i j 0 hj (by omega),
    serPos_div i j 1 hj (by omega), serPos_mod1 i j 1 hj (by omega),
    serPos_mod2 i j 1 hj (by omega),
    serPos_div i j 2 hj (by omega), serPos_mod1 i j 2 hj (by omega),
    serPos_mod2 i j 2 hj (by omega),
    serPos_div i j 3 hj (by omega), serPos_mod1 i j 3 hj (by omega),
    serPos_mod2 i j 3 hj (by omega),
    serPos_div i j 4 hj (by omega), serPos_mod1 i j 4 hj (by omega),
    serPos_mod2 i j 4 hj (by omega),
    serPos_div i j 5 hj (by omega), serPos_mod1 i j 5 hj (by omega),
    serPos_mod2 i j 5 hj (by omega),
    serPos_div i j 6 hj (by omega), serPos_mod1 i j 6 hj (by omega),
    serPos_mod2 i j 6 hj (by omega),
    serPos_div i j 7 hj (by omega), serPos_mod1 i j 7 hj (by omega),
    serPos_mod2 i j 7 hj (by omega)]
  simp only [byteAt, uint64Mod]
  norm_num
  omega

/-! ## Claim C1 -/

/-- Claim C1, counterexample.  The claim quantifies over every filter state and
asserts `Score(w) ≥ d` after `Add(w, d)` regardless of prior contents.  In
the state where every counter is `math.MaxUint64`, `Add([], 1)` wraps the
eight touched `uint64` counters around to `0`, and the subsequent score is
`0 < 1`. -/
theorem bloom_add_score_lower_bound_cex : ¬ (1 ≤ fScore (fAdd fMax [] 1) []) := by decide

/-- Claim C1, amended.  For every filter state, window `w` and amount `d` such
that none of the eight counters selected for `w` overflows `uint64` when
incremented by `d`, the score of `w` after `Add(w, d)` is at least `d`. -/
theorem bloom_add_score_lower_bound (f : Nat → Nat → Nat) (w : List Nat) (d : Nat)
    (hno : ∀ i ∈ List.range numFuncs, f i (fHash i w) + d < uint64Mod) :
    d ≤ fScore (fAdd f w d) w := by
  rw [fScore_fAdd f w d hno]
  exact Nat.le_add_left d _

/-- Claim C1, witness for the amended theorem at `f = fZero`, `w = []`, `d = 5`. -/
theorem bloom_add_score_lower_bound_witness :
    (∀ i ∈ List.range numFuncs, fZero i (fHash i []) + 5 < uint64Mod) ∧
      5 ≤ fScore (fAdd fZero [] 5) [] :=
  ⟨by decide, bloom_add_score_lower_bound fZero [] 5 (by decide)⟩

/-! ## Claim C2 -/

/-- Claim C2, counterexample.  With every counter at `math.MaxUint64`,
`Add([], 1)` wraps the touched counters to `0`; `Remove([], 1)` then sees
`Score([]) == 0` and returns without subtracting, so the final score `0`
differs from the pre-`Add` score `MaxUint64`. -/
theorem bloom_add_remove_restores_cex :
    fScore (fRemove (fAdd fMax [] 1) [] 1) [] ≠ fScore fMax [] := by decide

/-- Claim C2, amended.  When no counter selected for `w` overflows during the
`Add`, `Add(w, d)` followed by `Remove(w, d)` restores `Score(w)` exactly;
and unconditionally, `Remove` never wraps any counter below zero (every
cell after `Remove` is at most its previous value, thanks to the
`Field[i][j] < delta` guard). -/
theorem bloom_add_remove_restores (f : Nat → Nat → Nat) (w : List Nat) (d : Nat)
    (hno : ∀ i ∈ List.range numFuncs, f i (fHash i w) + d < uint64Mod) :
    fScore (fRemove (fAdd f w d) w d) w = fScore f w ∧
      ∀ (g : Nat → Nat → Nat) (v : List Nat) (e i j : Nat), fRemove g v e i j ≤ g i j :=
  ⟨fScore_fRemove_fAdd f w d hno, fun g v e i j => fRemove_le g v e i j⟩

/-- Claim C2, witness for the amended theorem at `f = fZero`, `w = []`, `d = 5`. -/
theorem bloom_add_remove_restores_witness :
    (∀ i ∈ List.range numFuncs, fZero i (fHash i []) + 5 < uint64Mod) ∧
      fScore (fRemove (fAdd fZero [] 5) [] 5) [] = fScore fZero [] :=
  ⟨by decide, (bloom_add_remove_restores fZero [] 5 (by decide)).1⟩

/-! ## Claim C9 -/

/-- Claim C9, counterexample.  With every counter at `math.MaxUint64`,
`Add([], 1)` wraps the touched counters to `0`, so the score increases by
`-(2^64 - 1)` rather than by exactly `1`. -/
theorem bloom_add_increases_exactly_cex :
    fScore (fAdd fMax [] 1) [] ≠ fScore fMax [] + 1 := by decide

/-- Claim C9, amended.  When none of the eight counters selected for `w`
overflows, `Add(w, d)` increments each of them by exactly `d`, so
`Score(w)` increases by exactly `d`. -/
theorem bloom_add_increases_exactly (f : Nat → Nat → Nat) (w : List Nat) (d : Nat)
    (hno : ∀ i ∈ List.range numFuncs, f i (fHash i w) + d < uint64Mod) :
    fScore (fAdd f w d) w = fScore f w + d :=
  fScore_fAdd f w d hno

/-- Claim C9, witness for the amended theorem at `f = fZero`, `w = [97]`, `d = 3`. -/
theorem bloom_add_increases_exactly_witness :
    (∀ i ∈ List.range numFuncs, fZero i (fHash i [97]) + 3 < uint64Mod) ∧
      fScore (fAdd fZero [97] 3) [97] = fScore fZero [97] + 3 :=
  ⟨by decide, bloom_add_increases_exactly fZero [97] 3 (by decide)⟩

/-! ## Claim C10 -/

/-- Claim C10, confirmed.  For every projection index `i` and every window `w`
(including the empty window), `F.hash` returns a value strictly below the
filter width `1_000_000`: the final `% filterSize` makes every counter
access of `Add`, `Remove` and `Score` fall inside the `numFuncs × filterSize`
grid. -/
theorem bloom_hash_in_bounds (i : Nat) (w : List Nat) : fHash i w < filterSize :=
  fHash_lt i w

/-! ## Claim C8 -/

/-- Claim C8, confirmed.  For every filter whose counters hold `uint64` values,
serializing the grid as a big-endian dump (`DB.persist`) and deserializing
it back (`NewDB`) yields a filter with identical `Score(w)` for every
window `w`. -/
theorem bloom_serialize_roundtrip_score (f : Nat → Nat → Nat) (w : List Nat)
    (hval : ∀ i ∈ List.range numFuncs, f i (fHash i w) < uint64Mod) :
    fScore (deserializeF (serializeF f)) w = fScore f w := by
  have hc : ∀ i, i < numFuncs →
      deserializeF (serializeF f) i (fHash i w) = f i (fHash i w) := by
    intro i hi
    rw [deser_ser_cell f i (fHash i w) (fHash_lt i w),
      Nat.mod_eq_of_lt (hval i (by simpa using hi))]
  rw [fScore_expand, fScore_expand]
  rw [hc 0 (by decide), hc 1 (by decide), hc 2 (by decide), hc 3 (by decide),
    hc 4 (by decide), hc 5 (by decide), hc 6 (by decide), hc 7 (by decide)]

/-- Claim C8, witness at `f = fMax`, `w = [97]`. -/
theorem bloom_serialize_roundtrip_score_witness :
    (∀ i ∈ List.range numFuncs, fMax i (fHash i [97]) < uint64Mod) ∧
      fScore (deserializeF (serializeF fMax)) [97] = fScore fMax [97] :=
  ⟨by decide, bloom_serialize_roundtrip_score fMax [97] (by decide)⟩

/-! ## Sliding window source (`ntuple/ntuple.go`)

`Reader.Next(d)` keeps an internal buffer `r.buf`.  Each loop iteration:
if fewer than `len(d)` bytes remain, allocate a fresh `bufSz`-byte buffer,
issue one `Read` on the underlying reader (a non-EOF error aborts; the
bytes read so far are truncated to `r.buf`), and if still fewer than
`len(d)` bytes remain return `io.EOF` — note that the old buffered bytes
are discarded by the reallocation.  Otherwise copy the first `len(d)`
bytes into `d`, stopping early if a disallowed byte (ASCII < 0x20, 0xC1,
0xC2, 0xF5..0xFD) is found; always advance the buffer by one byte
(`r.buf = r.buf[1:]`); return when a clean window was copied.

The underlying `io.Reader` is modelled as a list of read results: each
`Read` call yields either a chunk of bytes (covering both `(n, nil)` and
`(n, io.EOF)`, which the code treats identically) or an error; an
exhausted list models `(0, io.EOF)` forever. -/

def bufSz : Nat := 4194304

/-- The disallowed-byte test from `Reader.Next`:
`b < 0x20 || b == 0xC1 || b == 0xC2 || (0xF5 <= b && b <= 0xFD)`. -/
def isDisallowed (b : Nat) : Bool :=
  b < 32 || b == 193 || b == 194 || (245 ≤ b && b ≤ 253)

/-- One result of a `Read` call on the underlying reader. -/
inductive ReadRes where
  | chunk (l : List Nat)
  | ioError
deriving DecidableEq

/-- Outcome of one `Reader.Next` call: a filled window, `io.EOF`, or a
wrapped non-EOF read error. -/
inductive NextRes where
  | window (w : List Nat)
  | eof
  | ioErr
deriving DecidableEq

/-- The skip loop of `Reader.Next` within the current buffer: starting at
the buffer head, if fewer than `dlen` bytes remain signal that a refill is
needed (`none`); if the `dlen`-byte window at the head contains a
disallowed byte advance one byte and retry; otherwise return the window
and the buffer advanced one byte. -/
def scanBuf (dlen : Nat) : List Nat → Option (List Nat × List Nat)
  | [] => none
  | x :: xs =>
    if (x :: xs).length < dlen then none
    else if ((x :: xs).take dlen).any isDisallowed then scanBuf dlen xs
    else some ((x :: xs).take dlen, xs)

/-- Processing of one freshly read chunk in `Reader.Next`: a chunk shorter
than the window length makes `Next` return `io.EOF` immediately (with the
chunk left as the buffer); otherwise scan it, and if it is skipped
entirely, continue with the next read (`k`). -/
def chunkStep (dlen : Nat) (l : List Nat) (rest : List ReadRes)
    (k : NextRes × List Nat × List ReadRes) : NextRes × List Nat × List ReadRes :=
  if l.length < dlen then (.eof, l, rest)
  else
    match scanBuf dlen l with
    | some (w, buf2) => (.window w, buf2, rest)
    | none => k

/-- The refill loop of `Reader.Next`: issue `Read` calls until a window is
produced, the stream is exhausted (`io.EOF`, with the buffer truncated to
the zero bytes read), or a read fails (the freshly allocated `bufSz`
buffer is left in place). -/
def refillLoop (dlen : Nat) : List ReadRes → NextRes × List Nat × List ReadRes
  | [] => (.eof, [], [])
  | .ioError :: rest => (.ioErr, List.replicate bufSz 0, rest)
  | .chunk l :: rest => chunkStep dlen l rest (refillLoop dlen rest)

/-- `Reader.Next` from `ntuple/ntuple.go`: scan the current buffer; when it
runs short of a full window, discard it and refill from the underlying
reader.  Returns the outcome together with the reader state (buffer,
remaining reads) after the call. -/
def nextGo (dlen : Nat) (buf : List Nat) (input : List ReadRes) :
    NextRes × List Nat × List ReadRes :=
  match scanBuf dlen buf with
  | some (w, buf2) => (.window w, buf2, input)
  | none => refillLoop dlen input

/-- All windows produced by calling `Reader.Next` repeatedly until it stops
yielding windows; `fuel` bounds the number of calls. -/
def collectWindows (dlen : Nat) : Nat → List Nat → List ReadRes → List (List Nat)
  | 0, _, _ => []
  | fuel + 1, buf, input =>
    match nextGo dlen buf input with
    | (.window w, buf2, input2) => w :: collectWindows dlen fuel buf2 input2
    | _ => []

/-- Modelled from the spec (refinement reference): the windows the spec
describes — all `dlen`-byte slices of the whole input stream whose start
positions advance by exactly one byte, with windows containing a
disallowed byte skipped. -/
def specSlidingWindows (dlen : Nat) (s : List Nat) : List (List Nat) :=
  ((List.range (s.length + 1 - dlen)).map (fun i => (s.drop i).take dlen)).filter
    (fun w => !(w.any isDisallowed))

/-! ### Step lemmas for the reader -/

theorem nextGo_window (dlen : Nat) (buf : List Nat) (input : List ReadRes)
    (w buf2 : List Nat) (h : scanBuf dlen buf = some (w, buf2)) :
    nextGo dlen buf input = (.window w, buf2, input) := by
  simp only [nextGo, h]

theorem nextGo_refill (dlen : Nat) (buf : List Nat) (input : List ReadRes)
    (h : scanBuf dlen buf = none) :
    nextGo dlen buf input = refillLoop dlen input := by
  simp only [nextGo, h]

theorem refillLoop_nil (dlen : Nat) : refillLoop dlen [] = (.eof, [], []) := rfl

theorem refillLoop_err (dlen : Nat) (rest : List ReadRes) :
    refillLoop dlen (.ioError :: rest) = (.ioErr, List.replicate bufSz 0, rest) := rfl

theorem refillLoop_chunk_short (dlen : Nat) (l : List Nat) (rest : List ReadRes)
    (hl : l.length < dlen) :
    refillLoop dlen (.chunk l :: rest) = (.eof, l, rest) := by
  simp only [refillLoop, chunkStep, if_pos hl]

theorem refillLoop_chunk_window (dlen : Nat) (l : List Nat) (rest : List ReadRes)
    (w buf2 : List Nat) (hl : ¬ (l.length < dlen)) (hsc : scanBuf dlen l = some (w, buf2)) :
    refillLoop dlen (.chunk l :: rest) = (.window w, buf2, rest) := by
  simp only [refillLoop, chunkStep, if_neg hl, hsc]

theorem refillLoop_chunk_again (dlen : Nat) (l : List Nat) (rest : List ReadRes)
    (hl : ¬ (l.length < dlen)) (hsc : scanBuf dlen l = none) :
    refillLoop dlen (.chunk l :: rest) = refillLoop dlen rest := by
  simp only [refillLoop, chunkStep, if_neg hl, hsc]

theorem scanBuf_nil (dlen : Nat) : scanBuf dlen [] = none := rfl

theorem scanBuf_short (dlen : Nat) (x : Nat) (xs : List Nat) (h : (x :: xs).length < dlen) :
    scanBuf dlen (x :: xs) = none := by
  unfold scanBuf
  rw [if_pos h]

theorem scanBuf_skip (dlen : Nat) (x : Nat) (xs : List Nat) (h : ¬ ((x :: xs).length < dlen))
    (hsk : ((x :: xs).take dlen).any isDisallowed) :
    scanBuf dlen (x :: xs) = scanBuf dlen xs := by
  conv_lhs => unfold scanBuf
  rw [if_neg h, if_pos hsk]

theorem scanBuf_emit (dlen : Nat) (x : Nat) (xs : List Nat) (h : ¬ ((x :: xs).length < dlen))
    (hsk : ¬ ((x :: xs).take dlen).any isDisallowed) :
    scanBuf dlen (x :: xs) = some ((x :: xs).take dlen, xs) := by
  unfold scanBuf
  rw [if_neg h, if_neg hsk]

theorem collect_window (dlen fuel : Nat) (buf : List Nat) (input : List ReadRes)
    (w buf2 : List Nat) (input2 : List ReadRes)
    (h : nextGo dlen buf input = (.window w, buf2, input2)) :
    collectWindows dlen (fuel + 1) buf input = w :: collectWindows dlen fuel buf2 input2 := by
  simp only [collectWindows, h]

theorem collect_eof (dlen fuel : Nat) (buf : List Nat) (input : List ReadRes)
    (buf2 : List Nat) (input2 : List ReadRes)
    (h : nextGo dlen buf input = (.eof, buf2, input2)) :
    collectWindows dlen (fuel + 1) buf input = [] := by
  simp only [collectWindows, h]

theorem spec_nil_of_short (dlen : Nat) (s : List Nat)
    (h : s.length < dlen) : specSlidingWindows dlen s = [] := by
  unfold specSlidingWindows
  have e : s.length + 1 - dlen = 0 := by omega
  rw [e]
  rfl

theorem spec_cons (dlen : Nat) (x : Nat) (xs : List Nat)
    (h : ¬ ((x :: xs).length < dlen)) :
    specSlidingWindows dlen (x :: xs) =
      (if ((x :: xs).take dlen).any isDisallowed then [] else [(x :: xs).take dlen]) ++
        specSlidingWindows dlen xs := by
  unfold specSlidingWindows
  have e1 : (x :: xs).length + 1 - dlen = (xs.length + 1 - dlen) + 1 := by
    simp only [List.length_cons] at h ⊢
    omega
  rw [e1, List.range_succ_eq_map]
  simp only [List.map_cons, List.drop_zero, List.map_map]
  have e2 : ((fun i => ((x :: xs).drop i).take dlen) ∘ Nat.succ) =
      (fun i => (xs.drop i).take dlen) := by
    funext i
    simp [List.drop_succ_cons]
  rw [e2]
  rw [List.filter_cons]
  by_cases hh : ((x :: xs).take dlen).any isDisallowed
  · simp [hh]
  · simp [hh]

/-- Within a single buffered chunk (no further refills), the reader
produces exactly the spec's sliding windows. -/
theorem collect_empty_input (dlen : Nat) (hd : 0 < dlen) :
    ∀ (buf : List Nat) (fuel : Nat), buf.length ≤ fuel →
      collectWindows dlen (fuel + 1) buf [] = specSlidingWindows dlen buf := by
  intro buf
  induction buf with
  | nil =>
    intro fuel _
    rw [spec_nil_of_short dlen [] (by simpa using hd)]
    rw [collect_eof dlen fuel [] [] [] []
      (by rw [nextGo_refill dlen [] [] (scanBuf_nil dlen), refillLoop_nil])]
  | cons x xs ih =>
    intro fuel hfuel
    by_cases hlen : (x :: xs).length < dlen
    · rw [spec_nil_of_short dlen (x :: xs) hlen]
      rw [collect_eof dlen fuel (x :: xs) [] [] []
        (by rw [nextGo_refill dlen (x :: xs) [] (scanBuf_short dlen x xs hlen), refillLoop_nil])]
    · rw [spec_cons dlen x xs hlen]
      by_cases hskip : ((x :: xs).take dlen).any isDisallowed
      · have hsb : scanBuf dlen (x :: xs) = scanBuf dlen xs :=
          scanBuf_skip dlen x xs hlen hskip
        have hng : nextGo dlen (x :: xs) [] = nextGo dlen xs [] := by
          simp only [nextGo, hsb]
        have hcc : collectWindows dlen (fuel + 1) (x :: xs) [] =
            collectWindows dlen (fuel + 1) xs [] := by
          simp only [collectWindows, hng]
        rw [hcc, ih fuel (by simp only [List.length_cons] at hfuel; omega)]
        simp [hskip]
      · have hsb : scanBuf dlen (x :: xs) = some ((x :: xs).take dlen, xs) :=
          scanBuf_emit dlen x xs hlen hskip
        obtain ⟨g, rfl⟩ : ∃ g, fuel = g + 1 := by
          refine ⟨fuel - 1, ?_⟩
          simp only [List.length_cons] at hfuel
          omega
        rw [collect_window dlen (g + 1) (x :: xs) [] _ _ _
          (nextGo_window dlen (x :: xs) [] _ _ hsb)]
        rw [ih g (by simp only [List.length_cons] at hfuel; omega)]
        simp [hskip]

/-! ## Claim C4 -/

/-- Claim C4, counterexample.  The claim asserts that window start positions
advance by exactly one byte over the whole stream, including across
buffer refills.  When the underlying reader delivers `"abc"` and `"def"`
in two separate reads (window length 3), the refill discards the leftover
bytes `"bc"`, so the reader produces only `["abc", "def"]`, skipping the
spec's windows `"bcd"` and `"cde"`. -/
theorem ntuple_advance_by_one_cex :
    collectWindows 3 10 [] [.chunk [97, 98, 99], .chunk [100, 101, 102]] ≠
      specSlidingWindows 3 [97, 98, 99, 100, 101, 102] := by decide

/-- Claim C4, amended.  When the whole stream is delivered by a single `Read`
(one chunk of at most `bufSz` bytes), the reader produces exactly the
spec's sliding windows: starts advance by one byte per window and windows
containing a disallowed byte are silently skipped with the start advancing
one byte.  Across refills this fails (see the counterexample): the up to
`L - 1` leftover bytes are discarded, so windows spanning a refill
boundary are lost. -/
theorem ntuple_advance_by_one_single_read (dlen : Nat) (l : List Nat) (hd : 0 < dlen)
    (_hsz : l.length ≤ bufSz) :
    collectWindows dlen (l.length + 2) [] [.chunk l] = specSlidingWindows dlen l := by
  by_cases hlen : l.length < dlen
  · rw [spec_nil_of_short dlen l hlen]
    exact collect_eof dlen (l.length + 1) [] [.chunk l] l []
      (by rw [nextGo_refill dlen [] _ (scanBuf_nil dlen), refillLoop_chunk_short dlen l [] hlen])
  · have heq : nextGo dlen [] [.chunk l] = nextGo dlen l [] := by
      rw [nextGo_refill dlen [] _ (scanBuf_nil dlen)]
      cases hsc : scanBuf dlen l with
      | some p =>
        rw [refillLoop_chunk_window dlen l [] p.1 p.2 hlen (by rw [hsc]),
          nextGo_window dlen l [] p.1 p.2 (by rw [hsc])]
      | none =>
        rw [refillLoop_chunk_again dlen l [] hlen hsc, refillLoop_nil,
          nextGo_refill dlen l [] hsc, refillLoop_nil]
    have hcc : collectWindows dlen ((l.length + 1) + 1) [] [.chunk l] =
        collectWindows dlen ((l.length + 1) + 1) l [] := by
      simp only [collectWindows, heq]
    rw [show l.length + 2 = (l.length + 1) + 1 from rfl, hcc]
    exact collect_empty_input dlen hd l (l.length + 1) (by omega)

/-- Claim C4, witness for the amended theorem: a single chunk containing a
disallowed byte (0x0A), window length 3. -/
theorem ntuple_advance_by_one_single_read_witness :
    0 < 3 ∧ ([97, 98, 10, 99, 100, 101] : List Nat).length ≤ bufSz ∧
      collectWindows 3 (([97, 98, 10, 99, 100, 101] : List Nat).length + 2) []
          [.chunk [97, 98, 10, 99, 100, 101]] =
        specSlidingWindows 3 [97, 98, 10, 99, 100, 101] :=
  ⟨by decide, by decide,
    ntuple_advance_by_one_single_read 3 [97, 98, 10, 99, 100, 101] (by decide) (by decide)⟩

/-! ## Classifier (`classifier/classifier.go`)

`const windowSize = 6`.  `Word.SpamLikelihood` computes
`score := float64(w.Spam) / float64(w.Total)` (or returns the neutral `0.5`
when `Total == 0`), panics on `IsInf`/`IsNaN`, and logs & clamps to `0.5`
when the ratio leaves `[0, 1]`.  Go `float64` values are modelled as
`GoFloat`: exact rationals extended with the `±Inf`/`NaN` tags the code
branches on; the division of two `uint64` counters with a non-zero
denominator is always finite, modelled by its exact rational value (the
order classifications used by the code agree with `float64` evaluation
except for rounding at counts beyond `2^53`, which no claim here depends
on).  The transcendental `math.Log` and `math.Exp` are not computable on
rationals, so `Classifier.Classify` is embedded parametrically in the two
functions `lg` and `ex`; every theorem below holds for all choices of
these parameters.  The `Min`/`Max` diagnostic fields of `Result` (±Inf
sentinels, observational only) and the dynamic text of wrapped error
messages are not modelled. -/

def windowSize : Nat := 6

/-- A Go `float64` value: a finite (exact) rational, an infinity, or NaN. -/
inductive GoFloat where
  | finite (q : ℚ)
  | posInf
  | negInf
  | nan
deriving DecidableEq

/-- `math.IsInf(x, 0)`. -/
def gIsInf : GoFloat → Bool
  | .posInf => true
  | .negInf => true
  | _ => false

/-- `math.IsNaN(x)`. -/
def gIsNaN : GoFloat → Bool
  | .nan => true
  | _ => false

/-- The rational carried by a finite `GoFloat` (unused tag cases map to 0;
they are cut off by the `gIsInf`/`gIsNaN` guards before this is read). -/
def gVal : GoFloat → ℚ
  | .finite q => q
  | _ => 0

/-- Outcome of the checks in `Word.SpamLikelihood`: a returned score (with
a flag recording whether the corrupt-database warning was logged), or a
panic. -/
inductive CheckOut where
  | value (q : ℚ) (warned : Bool)
  | panicked
deriving DecidableEq

/-- The check-and-clamp suffix of `Word.SpamLikelihood`
(`classifier/classifier.go` lines 31-45): panic when the score is infinite
or NaN; log and substitute `0.5` when it falls outside `[0, 1]`; otherwise
return it unchanged. -/
def spamLikelihoodCheck (score : GoFloat) : CheckOut :=
  if gIsInf score then .panicked
  else if gIsNaN score then .panicked
  else
    let q := gVal score
    if q < 0 ∨ 1 < q then .value (1/2) true
    else .value q false

/-- `Word.SpamLikelihood`: neutral `0.5` when the word was never seen
(`Total == 0`), otherwise the checked ratio `Spam / Total`. -/
def spamLikelihoodFull (total spam : Nat) : CheckOut :=
  if total = 0 then .value (1/2) false
  else spamLikelihoodCheck (.finite ((spam : ℚ) / (total : ℚ)))

/-- `sigmoid` from `classifier/classifier.go`: panics when its argument
leaves `[0, 1]`, otherwise `max / (1 + exp(-k*(x - midpoint)))` with
`max = 1`, `k = 5`, `midpoint = 0.5`; `exp` is the abstract parameter
`ex`. -/
def sigmoidQ (ex : ℚ → ℚ) (x : ℚ) : Except Unit ℚ :=
  if x < 0 ∨ 1 < x then .error ()
  else .ok (1 / (1 + ex (-(5 : ℚ) * (x - 1/2))))

/-- The label assignment at the end of `Classifier.Classify`
(lines 218-234): start from `"ham"`, switch to `"unsure"` when
`score > thresholdUnsure`, then to `"spam"` when `score > thresholdSpam`. -/
def labelFor (score tU tS : ℚ) : String :=
  let l1 := if tU < score then "unsure" else "ham"
  if tS < score then "spam" else l1

/-- The fields of `classifier.Result` that the claims mention (`Label`,
`Score`, `Eta`). -/
structure CResult where
  label : String
  score : ℚ
  eta : ℚ
deriving DecidableEq

/-- Outcome of `Classifier.Classify`: a returned `Result` (the error
returned alongside it is always `nil` in the source — `errReturn`, fed by
`getWord`'s never-assigned error, is dead), a panic, or exhausted fuel. -/
inductive ClassifyOut where
  | res (r : CResult)
  | errReturn
  | panicked
  | outOfFuel
deriving DecidableEq

/-- `classifier.Word` as produced by `Classifier.getWord`: the window text
with its two counting-filter estimates. -/
structure Word where
  text : List Nat
  total : Nat
  spam : Nat

/-- `Classifier.getWord`: `Total = dbTotal.Score(word)`,
`Spam = dbSpam.Score(word)` (`getWord`'s error result is always `nil`). -/
def getWord (dbT dbS : Nat → Nat → Nat) (w : List Nat) : Word :=
  ⟨w, fScore dbT w, fScore dbS w⟩

/-- The tail of `Classifier.Classify` after the read loop:
`score := 1 / (1 + exp(eta))`, then the label assignment. -/
def classifyFinish (ex : ℚ → ℚ) (tU tS eta : ℚ) : ClassifyOut :=
  let score := 1 / (1 + ex eta)
  .res ⟨labelFor score tU tS, score, eta⟩

/-- The read loop of `Classifier.Classify`: on `io.EOF` the loop breaks
and the result is computed; on any other read error the code logs and
likewise just breaks (returning a best-effort result); on a window, the
per-window likelihood is checked, squashed through the sigmoid, and folded
into `eta` with decay `alpha = 0.975 = 39/40`
(`eta *= alpha; eta += log(1-s) - log(s)`). -/
def classifyGo (lg ex : ℚ → ℚ) (tU tS : ℚ) (dbT dbS : Nat → Nat → Nat) :
    ℚ → List Nat → List ReadRes → Nat → ClassifyOut
  | _, _, _, 0 => .outOfFuel
  | eta, buf, input, fuel + 1 =>
    match nextGo windowSize buf input with
    | (.eof, _, _) => classifyFinish ex tU tS eta
    | (.ioErr, _, _) => classifyFinish ex tU tS eta
    | (.window w, buf2, input2) =>
      match spamLikelihoodFull (getWord dbT dbS w).total (getWord dbT dbS w).spam with
      | .panicked => .panicked
      | .value p _ =>
        match sigmoidQ ex p with
        | .error _ => .panicked
        | .ok s =>
          classifyGo lg ex tU tS dbT dbS (eta * (39/40) + (lg (1 - s) - lg s)) buf2 input2 fuel

/-- Outcome of `Classifier.Train`: the two updated stores on success, or
the read error surfaced to the caller. -/
inductive TrainOut where
  | done (dbT dbS : Nat → Nat → Nat)
  | errReturn
  | outOfFuel

/-- `Classifier.Train`: read windows until `io.EOF`; any other read error
is returned immediately; each window is added to the total store, and to
the spam store as well when training as spam (`Classifier.trainWord`). -/
def trainGo (spam : Bool) (lf : Nat) :
    (Nat → Nat → Nat) → (Nat → Nat → Nat) → List Nat → List ReadRes → Nat → TrainOut
  | _, _, _, _, 0 => .outOfFuel
  | dbT, dbS, buf, input, fuel + 1 =>
    match nextGo windowSize buf input with
    | (.eof, _, _) => .done dbT dbS
    | (.ioErr, _, _) => .errReturn
    | (.window w, buf2, input2) =>
      trainGo spam lf (fAdd dbT w lf) (if spam then fAdd dbS w lf else dbS) buf2 input2 fuel

/-! ### Classifier helper lemmas -/

theorem scanBuf_some_length (dlen : Nat) :
    ∀ (buf : List Nat) (w buf2 : List Nat), scanBuf dlen buf = some (w, buf2) →
      buf2.length < buf.length := by
  intro buf
  induction buf with
  | nil => intro w b2 h; simp [scanBuf] at h
  | cons x xs ih =>
    intro w b2 h
    unfold scanBuf at h
    by_cases hlen : (x :: xs).length < dlen
    · rw [if_pos hlen] at h; exact absurd h (by simp)
    · rw [if_neg hlen] at h
      by_cases hsk : ((x :: xs).take dlen).any isDisallowed
      · rw [if_pos hsk] at h
        have := ih w b2 h
        simp only [List.length_cons]
        omega
      · rw [if_neg hsk] at h
        simp only [Option.some.injEq, Prod.mk.injEq] at h
        simp only [List.length_cons, ← h.2]
        omega

theorem spamLikelihoodCheck_finite (q : ℚ) :
    spamLikelihoodCheck (.finite q) =
      if q < 0 ∨ 1 < q then .value (1/2) true else .value q false := by
  unfold spamLikelihoodCheck
  simp [gIsInf, gIsNaN, gVal]

/-- On actual `uint64` counter values the likelihood never panics and lies
in `[0, 1]`: with `Total ≠ 0` the exact ratio is finite, so the `IsInf`
and `IsNaN` panic branches are unreachable. -/
theorem spamLikelihood_range (total spam : Nat) :
    ∃ (q : ℚ) (b : Bool), spamLikelihoodFull total spam = .value q b ∧ 0 ≤ q ∧ q ≤ 1 := by
  unfold spamLikelihoodFull
  by_cases ht : total = 0
  · exact ⟨1/2, false, by rw [if_pos ht], by norm_num, by norm_num⟩
  · rw [if_neg ht, spamLikelihoodCheck_finite]
    by_cases hq : ((spam : ℚ) / (total : ℚ)) < 0 ∨ 1 < ((spam : ℚ) / (total : ℚ))
    · exact ⟨1/2, true, by rw [if_pos hq], by norm_num, by norm_num⟩
    · push_neg at hq
      exact ⟨(spam : ℚ) / (total : ℚ), false, by rw [if_neg (by push_neg; exact hq)],
        hq.1, hq.2⟩

theorem sigmoidQ_ok (ex : ℚ → ℚ) (x : ℚ) (h0 : 0 ≤ x) (h1 : x ≤ 1) :
    sigmoidQ ex x = .ok (1 / (1 + ex (-(5 : ℚ) * (x - 1/2)))) := by
  unfold sigmoidQ
  rw [if_neg (by push_neg; exact ⟨h0, h1⟩)]

theorem trainGo_window (spam : Bool) (lf fuel : Nat) (dbT dbS : Nat → Nat → Nat)
    (buf : List Nat) (input : List ReadRes) (w buf2 : List Nat) (input2 : List ReadRes)
    (h : nextGo windowSize buf input = (.window w, buf2, input2)) :
    trainGo spam lf dbT dbS buf input (fuel + 1) =
      trainGo spam lf (fAdd dbT w lf) (if spam then fAdd dbS w lf else dbS) buf2 input2 fuel := by
  simp only [trainGo, h]

theorem trainGo_ioErr (spam : Bool) (lf fuel : Nat) (dbT dbS : Nat → Nat → Nat)
    (buf : List Nat) (input : List ReadRes) (buf2 : List Nat) (input2 : List ReadRes)
    (h : nextGo windowSize buf input = (.ioErr, buf2, input2)) :
    trainGo spam lf dbT dbS buf input (fuel + 1) = .errReturn := by
  simp only [trainGo, h]

theorem train_err (spam : Bool) (lf : Nat) (rest : List ReadRes) :
    ∀ (fuel : Nat) (buf : List Nat) (dbT dbS : Nat → Nat → Nat), buf.length ≤ fuel →
      trainGo spam lf dbT dbS buf (.ioError :: rest) (fuel + 1) = .errReturn := by
  intro fuel
  induction fuel with
  | zero =>
    intro buf dbT dbS hlen
    have hbuf : buf = [] := by
      cases buf with
      | nil => rfl
      | cons a as => simp at hlen
    subst hbuf
    exact trainGo_ioErr spam lf 0 dbT dbS [] _ (List.replicate bufSz 0) rest
      (by rw [nextGo_refill windowSize [] _ (scanBuf_nil windowSize), refillLoop_err])
  | succ g ih =>
    intro buf dbT dbS hlen
    cases hsc : scanBuf windowSize buf with
    | none =>
      exact trainGo_ioErr spam lf (g + 1) dbT dbS buf _ (List.replicate bufSz 0) rest
        (by rw [nextGo_refill windowSize buf _ hsc, refillLoop_err])
    | some p =>
      obtain ⟨w1, b2⟩ := p
      rw [trainGo_window spam lf (g + 1) dbT dbS buf _ w1 b2 _
        (nextGo_window windowSize buf _ w1 b2 hsc)]
      exact ih b2 _ _ (by
        have := scanBuf_some_length windowSize buf w1 b2 hsc
        omega)

theorem classifyGo_window (lg ex : ℚ → ℚ) (tU tS : ℚ) (dbT dbS : Nat → Nat → Nat)
    (eta : ℚ) (fuel : Nat) (buf : List Nat) (input : List ReadRes)
    (w buf2 : List Nat) (input2 : List ReadRes) (p s : ℚ) (b : Bool)
    (h : nextGo windowSize buf input = (.window w, buf2, input2))
    (hp : spamLikelihoodFull (getWord dbT dbS w).total (getWord dbT dbS w).spam = .value p b)
    (hs : sigmoidQ ex p = .ok s) :
    classifyGo lg ex tU tS dbT dbS eta buf input (fuel + 1) =
      classifyGo lg ex tU tS dbT dbS (eta * (39/40) + (lg (1 - s) - lg s)) buf2 input2 fuel := by
  simp only [classifyGo, h, hp, hs]

theorem classifyGo_ioErr (lg ex : ℚ → ℚ) (tU tS : ℚ) (dbT dbS : Nat → Nat → Nat)
    (eta : ℚ) (fuel : Nat) (buf : List Nat) (input : List ReadRes)
    (buf2 : List Nat) (input2 : List ReadRes)
    (h : nextGo windowSize buf input = (.ioErr, buf2, input2)) :
    classifyGo lg ex tU tS dbT dbS eta buf input (fuel + 1) = classifyFinish ex tU tS eta := by
  simp only [classifyGo, h]

theorem classifyFinish_res (ex : ℚ → ℚ) (tU tS eta : ℚ) :
    classifyFinish ex tU tS eta =
      .res ⟨labelFor (1 / (1 + ex eta)) tU tS, 1 / (1 + ex eta), eta⟩ := rfl

theorem classify_err_swallowed (lg ex : ℚ → ℚ) (tU tS : ℚ) (dbT dbS : Nat → Nat → Nat)
    (rest : List ReadRes) :
    ∀ (fuel : Nat) (buf : List Nat) (eta : ℚ), buf.length ≤ fuel →
      ∃ r, classifyGo lg ex tU tS dbT dbS eta buf (.ioError :: rest) (fuel + 1) = .res r := by
  intro fuel
  induction fuel with
  | zero =>
    intro buf eta hlen
    have hbuf : buf = [] := by
      cases buf with
      | nil => rfl
      | cons a as => simp at hlen
    subst hbuf
    refine ⟨⟨labelFor (1 / (1 + ex eta)) tU tS, 1 / (1 + ex eta), eta⟩, ?_⟩
    rw [classifyGo_ioErr lg ex tU tS dbT dbS eta 0 [] _ (List.replicate bufSz 0) rest
      (by rw [nextGo_refill windowSize [] _ (scanBuf_nil windowSize), refillLoop_err]),
      classifyFinish_res]
  | succ g ih =>
    intro buf eta hlen
    cases hsc : scanBuf windowSize buf with
    | none =>
      refine ⟨⟨labelFor (1 / (1 + ex eta)) tU tS, 1 / (1 + ex eta), eta⟩, ?_⟩
      rw [classifyGo_ioErr lg ex tU tS dbT dbS eta (g + 1) buf _ (List.replicate bufSz 0) rest
        (by rw [nextGo_refill windowSize buf _ hsc, refillLoop_err]),
        classifyFinish_res]
    | some p =>
      obtain ⟨w1, b2⟩ := p
      obtain ⟨q, b, hv, hq0, hq1⟩ :=
        spamLikelihood_range (getWord dbT dbS w1).total (getWord dbT dbS w1).spam
      rw [classifyGo_window lg ex tU tS dbT dbS eta (g + 1) buf _ w1 b2 _ q _ b
        (nextGo_window windowSize buf _ w1 b2 hsc) hv (sigmoidQ_ok ex q hq0 hq1)]
      exact ih b2 _ (by
        have := scanBuf_some_length windowSize buf w1 b2 hsc
        omega)

/-! ## Claim C3 -/

/-- Claim C3, counterexample.  The claim asserts that a non-EOF read error
during `Classify` aborts the operation and is returned to the caller.  On
a stream whose very first read fails, `Classify` logs, breaks out of the
loop, and returns a fully formed `Result` (here with the junk parameters
`lg = ex = const 0` and thresholds 0.3/0.7: score `1`, label `"spam"`)
with a `nil` error — a best-effort result, not an abort. -/
theorem classifier_io_error_aborts_cex :
    classifyGo (fun _ => 0) (fun _ => 0) (3/10) (7/10) fZero fZero 0 [] [.ioError] 2 =
      .res ⟨"spam", 1, 0⟩ := by
  rw [classifyGo_ioErr (fun _ => 0) (fun _ => 0) (3/10) (7/10) fZero fZero 0 1 [] _
    (List.replicate bufSz 0) []
    (by rw [nextGo_refill windowSize [] _ (scanBuf_nil windowSize), refillLoop_err]),
    classifyFinish_res]
  unfold labelFor
  norm_num

/-- Claim C3, amended.  For a stream that delivers at least one full window and
then fails: `Train` aborts and surfaces the error to the caller, but
`Classify` swallows the error and returns a best-effort `Result` (with a
`nil` error) computed from the windows read so far — for every choice of
stores, log/exp realizations and thresholds. -/
theorem classifier_io_error_aborts (l : List Nat) (rest : List ReadRes) (spam : Bool)
    (lf : Nat) (dbT dbS : Nat → Nat → Nat) (lg ex : ℚ → ℚ) (tU tS : ℚ)
    (h6 : 6 ≤ l.length) :
    trainGo spam lf dbT dbS [] (.chunk l :: .ioError :: rest) (l.length + 2) = .errReturn ∧
      ∃ r, classifyGo lg ex tU tS dbT dbS 0 [] (.chunk l :: .ioError :: rest)
        (l.length + 2) = .res r := by
  have hlen : ¬ (l.length < windowSize) := by simp only [windowSize]; omega
  have hstep : ∀ w1 b2, scanBuf windowSize l = some (w1, b2) →
      nextGo windowSize [] (.chunk l :: .ioError :: rest) =
        (.window w1, b2, .ioError :: rest) := by
    intro w1 b2 hsc
    rw [nextGo_refill windowSize [] _ (scanBuf_nil windowSize),
      refillLoop_chunk_window windowSize l _ w1 b2 hlen hsc]
  have hstepn : scanBuf windowSize l = none →
      nextGo windowSize [] (.chunk l :: .ioError :: rest) =
        (.ioErr, List.replicate bufSz 0, rest) := by
    intro hsc
    rw [nextGo_refill windowSize [] _ (scanBuf_nil windowSize),
      refillLoop_chunk_again windowSize l _ hlen hsc, refillLoop_err]
  constructor
  · cases hsc : scanBuf windowSize l with
    | none =>
      exact trainGo_ioErr spam lf (l.length + 1) dbT dbS [] _
        (List.replicate bufSz 0) rest (hstepn hsc)
    | some p =>
      obtain ⟨w1, b2⟩ := p
      rw [trainGo_window spam lf (l.length + 1) dbT dbS [] _ w1 b2 _ (hstep w1 b2 hsc)]
      refine train_err spam lf rest l.length b2 _ _ ?_
      have := scanBuf_some_length windowSize l w1 b2 hsc
      omega
  · cases hsc : scanBuf windowSize l with
    | none =>
      refine ⟨⟨labelFor (1 / (1 + ex 0)) tU tS, 1 / (1 + ex 0), 0⟩, ?_⟩
      rw [classifyGo_ioErr lg ex tU tS dbT dbS 0 (l.length + 1) [] _
        (List.replicate bufSz 0) rest (hstepn hsc), classifyFinish_res]
    | some p =>
      obtain ⟨w1, b2⟩ := p
      obtain ⟨q, b, hv, hq0, hq1⟩ :=
        spamLikelihood_range (getWord dbT dbS w1).total (getWord dbT dbS w1).spam
      rw [classifyGo_window lg ex tU tS dbT dbS 0 (l.length + 1) [] _ w1 b2 _ q _ b
        (hstep w1 b2 hsc) hv (sigmoidQ_ok ex q hq0 hq1)]
      refine classify_err_swallowed lg ex tU tS dbT dbS rest l.length b2 _ ?_
      have := scanBuf_some_length windowSize l w1 b2 hsc
      omega

/-- Claim C3, witness for the amended theorem: the six-byte chunk `"abcdef"`
followed by a failing read. -/
theorem classifier_io_error_aborts_witness :
    6 ≤ ([97, 98, 99, 100, 101, 102] : List Nat).length ∧
      (trainGo true 1 fZero fZero [] [.chunk [97, 98, 99, 100, 101, 102], .ioError]
          (([97, 98, 99, 100, 101, 102] : List Nat).length + 2) = .errReturn ∧
        ∃ r, classifyGo (fun _ => 0) (fun _ => 0) (3/10) (7/10) fZero fZero 0 []
          [.chunk [97, 98, 99, 100, 101, 102], .ioError]
          (([97, 98, 99, 100, 101, 102] : List Nat).length + 2) = .res r) :=
  ⟨by decide, classifier_io_error_aborts [97, 98, 99, 100, 101, 102] [] true 1 fZero fZero
    (fun _ => 0) (fun _ => 0) (3/10) (7/10) (by decide)⟩

/-! ## Claim C6 -/

/-- Claim C6, counterexample.  The claim says a non-finite likelihood is logged
and replaced by the neutral `0.5` and never crashes the process; but the
check code in `Word.SpamLikelihood` panics on a NaN (or infinite) score
instead of clamping it. -/
theorem classifier_nonfinite_clamped_cex :
    spamLikelihoodCheck GoFloat.nan = CheckOut.panicked ∧
      spamLikelihoodCheck GoFloat.nan ≠ CheckOut.value (1/2) true := by
  constructor
  · rfl
  · intro h
    exact absurd h (by decide)

/-- Claim C6, amended.  A score ratio outside `[0, 1]` (possible when collisions
make the spam estimate exceed the total estimate) is logged and clamped to
the neutral `0.5` and not propagated; but a non-finite likelihood value
would make the code panic rather than clamp — no such value can arise from
`uint64` counters, since `Total ≠ 0` keeps the ratio finite, and on actual
counter values `SpamLikelihood` never panics. -/
theorem classifier_invariant_clamped (q : ℚ) (h : q < 0 ∨ 1 < q) :
    spamLikelihoodCheck (.finite q) = .value (1/2) true ∧
      spamLikelihoodCheck .nan = .panicked ∧
      spamLikelihoodCheck .posInf = .panicked ∧
      ∀ total spam : Nat, spamLikelihoodFull total spam ≠ .panicked := by
  refine ⟨by rw [spamLikelihoodCheck_finite, if_pos h], rfl, rfl, ?_⟩
  intro total spam hcon
  obtain ⟨q2, b, hv, _, _⟩ := spamLikelihood_range total spam
  rw [hv] at hcon
  exact absurd hcon (by simp)

/-- Claim C6, witness for the amended theorem at the out-of-range ratio `q = 2`. -/
theorem classifier_invariant_clamped_witness :
    ((2 : ℚ) < 0 ∨ 1 < (2 : ℚ)) ∧
      spamLikelihoodCheck (.finite 2) = .value (1/2) true :=
  ⟨by norm_num, (classifier_invariant_clamped 2 (by norm_num)).1⟩

/-! ## Claim C7 -/

/-- Claim C7, confirmed.  With `thresholdUnsure < thresholdSpam`, the label is
`"ham"` for `score ≤ thresholdUnsure`, `"unsure"` for
`thresholdUnsure < score ≤ thresholdSpam`, and `"spam"` for
`score > thresholdSpam`; a score exactly equal to a threshold takes the
lower label (the code uses strict `>`). -/
theorem classifier_threshold_labels (s tU tS : ℚ) (h : tU < tS) :
    (s ≤ tU → labelFor s tU tS = "ham") ∧
      (tU < s → s ≤ tS → labelFor s tU tS = "unsure") ∧
      (tS < s → labelFor s tU tS = "spam") := by
  refine ⟨fun h1 => ?_, fun h1 h2 => ?_, fun h1 => ?_⟩ <;>
    simp only [labelFor] <;> split_ifs <;> first | rfl | linarith

/-- Claim C7, witness at thresholds 0.3 / 0.7: boundary score 0.3 is `"ham"`,
0.5 is `"unsure"`, boundary score 0.7 is `"unsure"`, 0.8 is `"spam"`. -/
theorem classifier_threshold_labels_witness :
    labelFor (3/10) (3/10) (7/10) = "ham" ∧
      labelFor (1/2) (3/10) (7/10) = "unsure" ∧
      labelFor (7/10) (3/10) (7/10) = "unsure" ∧
      labelFor (8/10) (3/10) (7/10) = "spam" :=
  ⟨(classifier_threshold_labels (3/10) (3/10) (7/10) (by norm_num)).1 (by norm_num),
    (classifier_threshold_labels (1/2) (3/10) (7/10) (by norm_num)).2.1 (by norm_num)
      (by norm_num),
    (classifier_threshold_labels (7/10) (3/10) (7/10) (by norm_num)).2.1 (by norm_num)
      (by norm_num),
    (classifier_threshold_labels (8/10) (3/10) (7/10) (by norm_num)).2.2 (by norm_num)⟩

/-! ## Counter store background persistence (`bloom/bloom-db.go`)

`DB.Run` loops: wait for a tick or for context cancellation (which flags
the final iteration); skip the body when the dirty flag is clear;
otherwise call `DB.persist` — create a temp file in the store directory,
serialize the filter into it, atomically rename it over the target — and
clear the dirty flag only when `persist` returned no error, logging and
continuing otherwise.  The iteration body is embedded as a state
transformer; `persist`'s three fallible I/O steps are driven by an
outcome oracle, and the target file content changes exactly on a
successful rename (the rename's atomicity itself is an OS guarantee
outside the model). -/

/-- State of one `DB` as seen by `Run`: loop-exit flag, dirty flag,
in-memory filter, and the serialized content currently at the target path
(`none` when the file does not exist). -/
structure RunState where
  done : Bool
  dirty : Bool
  filt : Nat → Nat → Nat
  stored : Option (Nat → Nat)

/-- What woke the loop: context cancellation or the minute ticker. -/
inductive RunEvent where
  | ctxDone
  | tick
deriving DecidableEq

/-- Which step of `DB.persist` fails, if any. -/
inductive PersistOutcome where
  | tempFileFail
  | writeFail
  | renameFail
  | success
deriving DecidableEq

/-- `DB.persist`: temp-file creation, serialization (`binary.Write`) and
rename each either fail with the corresponding wrapped error or proceed;
only a completed rename replaces the stored content, with the serialized
in-memory filter. -/
def persistModel (st : RunState) (o : PersistOutcome) : Except String (Option (Nat → Nat)) :=
  match o with
  | .tempFileFail => .error "creating temp file"
  | .writeFail => .error "marshal filter"
  | .renameFail => .error "renaming temp file"
  | .success => .ok (some (serializeF st.filt))

/-- One iteration of the `DB.Run` loop body. -/
def runIter (st : RunState) (ev : RunEvent) (o : PersistOutcome) : RunState :=
  let st1 := match ev with
    | .ctxDone => { st with done := true }
    | .tick => st
  if st1.dirty = false then st1
  else
    match persistModel st1 o with
    | .error _ => st1
    | .ok fs => { st1 with stored := fs, dirty := false }

/-! ## Claim C5 -/

/-- Claim C5, confirmed.  In every iteration of `DB.Run`: when dirty and the
persist fails at any step, the dirty flag stays set, the stored file is
unchanged, and (on a tick) the loop does not terminate; when dirty and the
persist succeeds, the serialized filter is installed at the target path
and the dirty flag is cleared; and the dirty flag is cleared only by a
successful rename. -/
theorem store_persist_loop (st : RunState) (ev : RunEvent) (o : PersistOutcome) :
    (st.dirty = true → o ≠ .success →
      (runIter st ev o).dirty = true ∧ (runIter st ev o).stored = st.stored ∧
        (ev = .tick → (runIter st ev o).done = st.done)) ∧
      (st.dirty = true → o = .success →
        (runIter st ev o).dirty = false ∧
          (runIter st ev o).stored = some (serializeF st.filt)) ∧
      ((runIter st ev o).dirty = false → st.dirty = false ∨ o = .success) := by
  obtain ⟨d0, dt, f0, s0⟩ := st
  cases ev <;> cases o <;> cases dt <;>
    simp [runIter, persistModel]

/-- Claim C5, witness: a dirty store on a tick, for a failing rename and for a
successful persist. -/
theorem store_persist_loop_witness :
    ((runIter ⟨false, true, fZero, none⟩ .tick .renameFail).dirty = true ∧
        (runIter ⟨false, true, fZero, none⟩ .tick .renameFail).stored = none) ∧
      (runIter ⟨false, true, fZero, none⟩ .tick .success).dirty = false :=
  ⟨⟨((store_persist_loop ⟨false, true, fZero, none⟩ .tick .renameFail).1 rfl
      (by decide)).1,
    ((store_persist_loop ⟨false, true, fZero, none⟩ .tick .renameFail).1 rfl
      (by decide)).2.1⟩,
    ((store_persist_loop ⟨false, true, fZero, none⟩ .tick .success).2.1 rfl rfl).1⟩

end Mailfilter
